import Mathlib

/-!
Shallow embedding of `12_datasets/coco.py`: a COCO dataset import script.
The script downloads eight zip archives in parallel (`subprocess.Popen` +
`wait`), then for each archive extracts it, deletes the zip, and copies the
scratch directory into a mounted volume with a thread-pool tree copier.

Filesystem state is modeled as an association list of files (path to byte
content, bytes as `Nat`) plus a list of existing directories; paths are lists
of components. Fallible operations return `Except DriverError`.
-/

namespace Coco

abbrev Path := List String

/-- One download job: the shell command handed to `subprocess.Popen`
(line 132) and the exit status later returned by `p.wait()` (line 136). -/
structure DownloadJob where
  cmd : String
  returncode : Int
deriving DecidableEq, Repr

/-- The f-string at line 141: `Error in downloading. {p.args!r} failed {returncode=}`.
`p.args` is the command string (repr wraps it in single quotes, written `\x27`). -/
def errorMsg (cmd : String) (rc : Int) : String :=
  "Error in downloading. \x27" ++ cmd ++ "\x27 failed returncode=" ++ toString rc

/-- The wait-and-collect loop of lines 134-142: observe every process in
submission order, appending one message per non-zero exit status. -/
def fetchErrors (jobs : List DownloadJob) : List String :=
  jobs.foldl
    (fun errs j =>
      if j.returncode = 0 then errs else errs ++ [errorMsg j.cmd j.returncode])
    []

/-- Lines 131-144: wait on all processes, then `raise RuntimeError(errors)`
when any failures were recorded, else fall through normally. -/
def fetcher (jobs : List DownloadJob) : Except (List String) Unit :=
  let errors := fetchErrors jobs
  if errors.isEmpty then Except.ok () else Except.error errors

/-- Filesystem state: files as an association list from path to content
(each path at most once in well-formed states), plus existing directories. -/
structure FS where
  files : List (Path × List Nat)
  dirs : List Path
deriving DecidableEq, Repr

/-- `open(full_path, "wb")` then write: create or truncate-overwrite. -/
def FS.writeFile (fs : FS) (p : Path) (c : List Nat) : FS :=
  { fs with files := (p, c) :: fs.files.filter (fun pc => ¬ pc.1 = p) }

/-- Content of the file at `p`, if one exists. -/
def FS.lookup (fs : FS) (p : Path) : Option (List Nat) :=
  (fs.files.find? (fun pc => pc.1 = p)).map Prod.snd

/-- Record a directory as existing (idempotent). -/
def addDir (fs : FS) (p : Path) : FS :=
  if p ∈ fs.dirs then fs else { fs with dirs := p :: fs.dirs }

/-- The nonempty prefixes of a path, shortest first. -/
def prefixesOf (p : Path) : List Path :=
  (List.range p.length).map (fun i => p.take (i + 1))

/-- `os.makedirs`-style creation used by `full_path.parent.mkdir(exist_ok=True,
parents=True)` (line 70) and by `ZipFile.extract`: create every missing
ancestor directory and the target itself, never failing. -/
def mkdirAll (fs : FS) (p : Path) : FS :=
  (prefixesOf p).foldl addDir fs

/-- One archive index entry as read from `zipf.infolist()`: name, declared
uncompressed size, directory flag, and the entry byte stream. -/
structure ZipEntry where
  filename : Path
  file_size : Nat
  is_dir : Bool
  content : List Nat
deriving DecidableEq, Repr

/-- Body of the per-entry loop at lines 65-72: entries with falsy `file_size`
go through `zipf.extract` (which creates ancestors, then either makes the
directory or writes the entry bytes); other entries get their parent created
and their stream copied into a freshly opened file. -/
def extractEntry (dest : Path) (fs : FS) (e : ZipEntry) : FS :=
  if e.file_size = 0 then
    if e.is_dir then mkdirAll fs (dest ++ e.filename)
    else (mkdirAll fs (dest ++ e.filename).dropLast).writeFile (dest ++ e.filename) e.content
  else
    (mkdirAll fs (dest ++ e.filename).dropLast).writeFile (dest ++ e.filename) e.content

/-- `extractall` (lines 53-72), with the tqdm progress bar dropped: a fold of
`extractEntry` over the archive index. -/
def extractall (fs : FS) (entries : List ZipEntry) (dest : Path) : FS :=
  entries.foldl (extractEntry dest) fs

/-- The exception kinds the script can raise. -/
inductive DriverError where
  | keyError (key : String)
  | runtimeError (msgs : List String)
  | fileExistsError (p : Path)
  | fileNotFoundError (p : Path)
  | valueError (msg : String)
deriving DecidableEq, Repr

/-- `pathlib.Path.mkdir` / `os.makedirs` at a single path: fails when the path
already exists as a file, or as a directory unless `existOk`. -/
def mkdirExc (fs : FS) (p : Path) (existOk : Bool) : Except DriverError FS :=
  if p ∈ fs.files.map Prod.fst then Except.error (DriverError.fileExistsError p)
  else if p ∈ fs.dirs then
    if existOk then Except.ok fs else Except.error (DriverError.fileExistsError p)
  else Except.ok (addDir fs p)

/-- `pathlib.Path.unlink()` (line 195): remove the file, failing if absent. -/
def unlinkExc (fs : FS) (p : Path) : Except DriverError FS :=
  if p ∈ fs.files.map Prod.fst then
    Except.ok { fs with files := fs.files.filter (fun pc => ¬ pc.1 = p) }
  else Except.error (DriverError.fileNotFoundError p)

/-- The files `shutil.copytree` discovers under `src`. -/
def srcFilesUnder (fs : FS) (src : Path) : List (Path × List Nat) :=
  fs.files.filter (fun pc => src.isPrefixOf pc.1)

/-- The proper subdirectories `shutil.copytree` discovers under `src`. -/
def srcDirsUnder (fs : FS) (src : Path) : List Path :=
  fs.dirs.filter (fun d => src.isPrefixOf d ∧ ¬ d = src)

/-- Map a path under `src` to the corresponding path under `dest`. -/
def relocate (src dest : Path) (p : Path) : Path :=
  dest ++ p.drop src.length

/-- `copy_concurrent` (lines 75-95) with each file copy's outcome given by
`fails` (`true` means that `shutil.copy2` task raised inside the pool;
`apply_async` at line 83 discards the outcome either way). `ThreadPool(0)`
raises `ValueError`; `copytree(..., dirs_exist_ok=True)` makes the destination
directories with `exist_ok`; the pool is closed and joined on block exit. -/
def copyConcurrentWith (fails : Path × List Nat → Bool) (fs : FS)
    (src dest : Path) (maxThreads : Nat) : Except DriverError FS :=
  if maxThreads = 0 then
    Except.error (DriverError.valueError "Number of processes must be at least 1")
  else
    match (mkdirExc fs dest true).bind
        (fun a => (srcDirsUnder fs src).foldlM
          (fun b d => mkdirExc b (relocate src dest d) true) a) with
    | Except.error e => Except.error e
    | Except.ok fs2 =>
      Except.ok ((srcFilesUnder fs src).foldl
        (fun a pc =>
          if fails pc then a else a.writeFile (relocate src dest pc.1) pc.2)
        fs2)

/-- `copy_concurrent` as run: every dispatched `shutil.copy2` succeeds. -/
def copy_concurrent (fs : FS) (src dest : Path) (maxThreads : Nat) :
    Except DriverError FS :=
  copyConcurrentWith (fun _ => false) fs src dest maxThreads

/-- Whether an operation returned normally. -/
def exceptIsOk : Except DriverError FS → Bool
  | Except.ok _ => true
  | Except.error _ => false

/-- One file-copy task handed to the worker pool. -/
structure CopyTask where
  source : Path
  target : Path
deriving DecidableEq, Repr

/-- The worker pool's ledger: tasks dispatched but not yet finished, and
tasks that have been run to completion (successfully or not). -/
structure PoolState where
  pending : List CopyTask
  completed : List CopyTask
deriving DecidableEq, Repr

/-- `pool.apply_async(shutil.copy2, args=...)` (line 83): enqueue the task. -/
def applyAsync (s : PoolState) (t : CopyTask) : PoolState :=
  { s with pending := s.pending ++ [t] }

/-- `pool.close()` (line 89): stop accepting work; queued tasks keep running. -/
def poolClose (s : PoolState) : PoolState := s

/-- `pool.join()` (line 90): block until every queued task has completed. -/
def poolJoin (s : PoolState) : PoolState :=
  { pending := [], completed := s.completed ++ s.pending }

/-- `MultithreadedCopier.__exit__` (lines 88-90): close, then join. -/
def copierExit (s : PoolState) : PoolState := poolJoin (poolClose s)

/-- The copy tasks one `copy_concurrent` call dispatches: one per file that
`copytree` discovers under `src`. -/
def dispatchedTasks (fs : FS) (src dest : Path) : List CopyTask :=
  (srcFilesUnder fs src).map
    (fun pc => { source := pc.1, target := relocate src dest pc.1 })

/-- The pool ledger across one `copy_concurrent` call: all discovered copies
are dispatched, then the `with` block exit runs close + join. -/
def runCopier (tasks : List CopyTask) : PoolState :=
  copierExit (tasks.foldl applyAsync { pending := [], completed := [] })

/-- Lines 32-50: `os.environ["MODAL_TASK_ID"]` raises `KeyError` when the
variable is absent; otherwise a daemon thread is started that only logs free
disk space to stderr and has no driver-visible effect. -/
def start_monitoring_disk_space (env : List (String × String)) :
    Except DriverError Unit :=
  match env.lookup "MODAL_TASK_ID" with
  | none => Except.error (DriverError.keyError "MODAL_TASK_ID")
  | some _ => Except.ok ()

def train2017_tmp : Path := ["tmp", "train2017.zip"]

def val2017_tmp : Path := ["tmp", "val2017.zip"]

def test2017_tmp : Path := ["tmp", "test2017.zip"]

def unlabeled2017_tmp : Path := ["tmp", "unlabeled2017.zip"]

def annotations_trainval2017 : Path := ["tmp", "annotations_trainval2017.zip"]

def stuff_annotations_trainval2017 : Path :=
  ["tmp", "stuff_annotations_trainval2017.zip"]

def image_info_test2017 : Path := ["tmp", "image_info_test2017.zip"]

def image_info_unlabeled2017 : Path := ["tmp", "image_info_unlabeled2017.zip"]

/-- The eight wget commands (lines 121-130) and the scratch path each writes. -/
def downloadSpecs : List (String × Path) :=
  [("wget http://images.cocodataset.org/zips/train2017.zip -O /tmp/train2017.zip",
    train2017_tmp),
   ("wget http://images.cocodataset.org/zips/val2017.zip -O /tmp/val2017.zip",
    val2017_tmp),
   ("wget http://images.cocodataset.org/zips/test2017.zip -O /tmp/test2017.zip",
    test2017_tmp),
   ("wget http://images.cocodataset.org/zips/unlabeled2017.zip -O /tmp/unlabeled2017.zip",
    unlabeled2017_tmp),
   ("wget http://images.cocodataset.org/annotations/annotations_trainval2017.zip -O /tmp/annotations_trainval2017.zip",
    annotations_trainval2017),
   ("wget http://images.cocodataset.org/annotations/stuff_annotations_trainval2017.zip -O /tmp/stuff_annotations_trainval2017.zip",
    stuff_annotations_trainval2017),
   ("wget http://images.cocodataset.org/annotations/image_info_test2017.zip -O /tmp/image_info_test2017.zip",
    image_info_test2017),
   ("wget http://images.cocodataset.org/annotations/image_info_unlabeled2017.zip -O /tmp/image_info_unlabeled2017.zip",
    image_info_unlabeled2017)]

def commands : List String := downloadSpecs.map Prod.fst

/-- One (src, extract_dest, final_dest) triple of the driver loop. -/
structure PairSpec where
  src : Path
  extract_dest : Path
  final_dest : Path
deriving DecidableEq, Repr

/-- Line 146: `destination = pathlib.Path("/tmp/train2017/")` — fixed before
the loop and never rebound inside it. -/
def destination : Path := ["tmp", "train2017"]

/-- The eight (src, extract_dest, final_dest) triples of lines 151-192. -/
def pairs : List PairSpec :=
  [{ src := train2017_tmp, extract_dest := ["tmp", "train2017"],
     final_dest := ["vol", "coco", "train2017"] },
   { src := val2017_tmp, extract_dest := ["tmp", "val2017"],
     final_dest := ["vol", "coco", "val2017"] },
   { src := test2017_tmp, extract_dest := ["tmp", "test2017"],
     final_dest := ["vol", "coco", "test2017"] },
   { src := unlabeled2017_tmp, extract_dest := ["tmp", "unlabeled2017"],
     final_dest := ["vol", "coco", "unlabeled2017"] },
   { src := annotations_trainval2017,
     extract_dest := ["tmp", "annotations_trainval2017"],
     final_dest := ["vol", "coco", "annotations_trainval2017"] },
   { src := stuff_annotations_trainval2017,
     extract_dest := ["tmp", "stuff_annotations_trainval2017"],
     final_dest := ["vol", "coco", "stuff_annotations_trainval2017"] },
   { src := image_info_test2017,
     extract_dest := ["tmp", "image_info_test2017"],
     final_dest := ["vol", "coco", "image_info_test2017"] },
   { src := image_info_unlabeled2017,
     extract_dest := ["tmp", "image_info_unlabeled2017"],
     final_dest := ["vol", "coco", "image_info_unlabeled2017"] }]

/-- The loop body, lines 193-198: `extract_dest.mkdir()` (no exist_ok), then
`extractall(src, destination)`, then `src.unlink()`, then
`copy_concurrent(destination, final_dest)`. Both the extraction and the copy
use the loop-invariant `destination`, not the pair's `extract_dest`.
`zipContents` gives the index of the archive stored at a path. -/
def processPair (zipContents : Path → List ZipEntry) (fs : FS) (pr : PairSpec) :
    Except DriverError FS :=
  (mkdirExc fs pr.extract_dest false).bind (fun fs1 =>
    (unlinkExc (extractall fs1 (zipContents pr.src) destination) pr.src).bind
      (fun fs3 => copy_concurrent fs3 destination pr.final_dest 48))

/-- `import_transform_load` (lines 108-199), with the monitoring call made
switchable: start monitoring (when `monitor`), launch the downloads (each
writing bytes `dl cmd` to its scratch path), wait and aggregate failures,
then run the per-pair loop. `wait` gives each command's exit status. -/
def import_transform_loadGen (monitor : Bool) (env : List (String × String))
    (wait : String → Int) (dl : String → List Nat)
    (zipContents : Path → List ZipEntry) (fs : FS) : Except DriverError FS :=
  ((if monitor then start_monitoring_disk_space env else Except.ok ())).bind
    (fun _ =>
      let fsDl := downloadSpecs.foldl (fun a sp => a.writeFile sp.2 (dl sp.1)) fs
      match fetcher (commands.map (fun c => { cmd := c, returncode := wait c })) with
      | Except.error msgs => Except.error (DriverError.runtimeError msgs)
      | Except.ok _ => pairs.foldlM (processPair zipContents) fsDl)

/-- The driver as the source runs it: monitoring enabled (line 109). -/
def import_transform_load (env : List (String × String)) (wait : String → Int)
    (dl : String → List Nat) (zipContents : Path → List ZipEntry) (fs : FS) :
    Except DriverError FS :=
  import_transform_loadGen true env wait dl zipContents fs

/-- Content of the file at `p` in the final state, when the run succeeded. -/
def finalLookup (r : Except DriverError FS) (p : Path) : Option (List Nat) :=
  match r with
  | Except.ok f => f.lookup p
  | Except.error _ => none

/-- Total size of the files whose path lies under `dest`. -/
def sizeUnder (fs : FS) (dest : Path) : Nat :=
  ((fs.files.filter (fun pc => dest.isPrefixOf pc.1)).map
    (fun pc => pc.2.length)).sum

/-- Archive-content oracle used in concrete runs: train2017.zip holds one
3-byte image, val2017.zip one 1-byte image, all other archives are empty. -/
def zcEx : Path → List ZipEntry :=
  fun p =>
    if p = train2017_tmp then
      [{ filename := ["t.jpg"], file_size := 3, is_dir := false, content := [1, 2, 3] }]
    else if p = val2017_tmp then
      [{ filename := ["v.jpg"], file_size := 1, is_dir := false, content := [7] }]
    else []

/-- A concrete environment that provides the task identifier. -/
def envEx : List (String × String) := [("MODAL_TASK_ID", "ta-01")]

/-- A concrete download-job list with one failing job. -/
def jobsBad : List DownloadJob :=
  [{ cmd := "cmd-a", returncode := 0 }, { cmd := "cmd-b", returncode := 8 }]

theorem fetchErrors_eq (jobs : List DownloadJob) :
    fetchErrors jobs
      = (jobs.filter (fun j => ¬ j.returncode = 0)).map
          (fun j => errorMsg j.cmd j.returncode) := by
  have aux : ∀ (l : List DownloadJob) (acc : List String),
      l.foldl
          (fun errs j =>
            if j.returncode = 0 then errs else errs ++ [errorMsg j.cmd j.returncode])
          acc
        = acc ++ (l.filter (fun j => ¬ j.returncode = 0)).map
            (fun j => errorMsg j.cmd j.returncode) := by
    intro l
    induction l with
    | nil => intro acc; simp
    | cons j t ih =>
      intro acc
      by_cases h : j.returncode = 0
      · simp [h, ih]
      · simp [h, ih]
  simpa [fetchErrors] using aux jobs []

/-- **C2.** The fetcher observes every job; it returns normally exactly when
all exit statuses are 0, and otherwise raises, after the whole list has been
folded over, the aggregated list with one message per failing job, each
message containing that job's command and its exit status. -/
theorem fetcher_spec (jobs : List DownloadJob) :
    (fetcher jobs = Except.ok () ↔ ∀ j ∈ jobs, j.returncode = 0) ∧
    ((∃ j ∈ jobs, ¬ j.returncode = 0) →
      fetcher jobs
        = Except.error ((jobs.filter (fun j => ¬ j.returncode = 0)).map
            (fun j => errorMsg j.cmd j.returncode))) ∧
    (∀ j ∈ jobs, ∃ s t, errorMsg j.cmd j.returncode = s ++ j.cmd ++ t ∧
      ∃ u, t = u ++ toString j.returncode) := by
  refine ⟨?_, ?_, ?_⟩
  · constructor
    · intro h j hj
      by_contra hbad
      have hmem : j ∈ jobs.filter (fun j => ¬ j.returncode = 0) :=
        List.mem_filter.mpr ⟨hj, by simpa using hbad⟩
      have hne : fetchErrors jobs ≠ [] := by
        rw [fetchErrors_eq]
        intro hnil
        rw [List.map_eq_nil_iff] at hnil
        rw [hnil] at hmem
        exact List.not_mem_nil j hmem
      simp only [fetcher, List.isEmpty_iff] at h
      split at h
      · exact hne (by assumption)
      · exact Except.noConfusion h
    · intro h
      have hnil : fetchErrors jobs = [] := by
        rw [fetchErrors_eq, List.map_eq_nil_iff, List.filter_eq_nil_iff]
        intro j hj
        simp [h j hj]
      simp [fetcher, hnil]
  · intro ⟨j, hj, hbad⟩
    have hne : ¬ fetchErrors jobs = [] := by
      rw [fetchErrors_eq]
      intro hnil
      rw [List.map_eq_nil_iff, List.filter_eq_nil_iff] at hnil
      exact hnil j hj (by simpa using hbad)
    simp only [fetcher, List.isEmpty_iff]
    rw [if_neg hne, fetchErrors_eq]
  · intro j _
    refine ⟨"Error in downloading. \x27",
      "\x27 failed returncode=" ++ toString j.returncode,
      ?_, "\x27 failed returncode=", rfl⟩
    simp [errorMsg, String.append_assoc]

/-- Witness for C2 at a concrete job list: the failing job's message is
raised, verbatim, with its command and status inside. -/
theorem fetcher_spec_witness :
    fetcher jobsBad = Except.error [errorMsg "cmd-b" 8] := by
  have h := (fetcher_spec jobsBad).2.1
    ⟨{ cmd := "cmd-b", returncode := 8 }, by decide, by decide⟩
  rw [h]
  rfl

theorem files_addDir (fs : FS) (p : Path) : (addDir fs p).files = fs.files := by
  unfold addDir
  split <;> rfl

theorem files_foldl_addDir (l : List Path) (fs : FS) :
    (l.foldl addDir fs).files = fs.files := by
  induction l generalizing fs with
  | nil => rfl
  | cons p t ih => simp [List.foldl, ih, files_addDir]

theorem files_mkdirAll (fs : FS) (p : Path) : (mkdirAll fs p).files = fs.files :=
  files_foldl_addDir _ _

theorem mem_dirs_addDir_self (fs : FS) (p : Path) : p ∈ (addDir fs p).dirs := by
  unfold addDir
  split
  · assumption
  · exact List.mem_cons_self p _

theorem mem_dirs_addDir_mono (fs : FS) (p q : Path) (h : q ∈ fs.dirs) :
    q ∈ (addDir fs p).dirs := by
  unfold addDir
  split
  · exact h
  · exact List.mem_cons_of_mem _ h

theorem mem_dirs_foldl_addDir_mono (l : List Path) (fs : FS) (q : Path)
    (h : q ∈ fs.dirs) : q ∈ (l.foldl addDir fs).dirs := by
  induction l generalizing fs with
  | nil => exact h
  | cons p t ih => exact ih _ (mem_dirs_addDir_mono _ _ _ h)

theorem mem_dirs_foldl_addDir (l : List Path) (fs : FS) (p : Path) (h : p ∈ l) :
    p ∈ (l.foldl addDir fs).dirs := by
  induction l generalizing fs with
  | nil => exact absurd h (List.not_mem_nil p)
  | cons a t ih =>
    rcases List.mem_cons.mp h with h1 | h2
    · subst h1
      exact mem_dirs_foldl_addDir_mono t (addDir fs p) p (mem_dirs_addDir_self fs p)
    · exact ih (addDir fs a) h2

theorem self_mem_prefixesOf (p : Path) (h : ¬ p = []) : p ∈ prefixesOf p := by
  have hlen : 0 < p.length := List.length_pos.mpr h
  unfold prefixesOf
  refine List.mem_map.mpr ⟨p.length - 1, List.mem_range.mpr (by omega), ?_⟩
  have hc : p.length - 1 + 1 = p.length := Nat.sub_add_cancel hlen
  rw [hc]
  exact List.take_length p

theorem mem_dirs_mkdirAll_self (fs : FS) (p : Path) (h : ¬ p = []) :
    p ∈ (mkdirAll fs p).dirs :=
  mem_dirs_foldl_addDir _ _ _ (self_mem_prefixesOf p h)

theorem dirs_writeFile (fs : FS) (p : Path) (c : List Nat) :
    (fs.writeFile p c).dirs = fs.dirs := rfl

theorem files_writeFile_fresh (fs : FS) (p : Path) (c : List Nat)
    (h : p ∉ fs.files.map Prod.fst) :
    (fs.writeFile p c).files = (p, c) :: fs.files := by
  unfold FS.writeFile
  have hid : fs.files.filter (fun pc => ¬ pc.1 = p) = fs.files := by
    rw [List.filter_eq_self]
    intro pc hpc
    simp only [decide_eq_true_eq]
    intro heq
    exact h (heq ▸ List.mem_map_of_mem Prod.fst hpc)
  rw [hid]

theorem files_foldl_write_fresh (l : List (Path × List Nat)) (fs : FS)
    (hfresh : ∀ pc ∈ l, pc.1 ∉ fs.files.map Prod.fst)
    (hnd : (l.map Prod.fst).Nodup) :
    (l.foldl (fun a pc => a.writeFile pc.1 pc.2) fs).files
      = l.reverse ++ fs.files := by
  induction l generalizing fs with
  | nil => rfl
  | cons pc t ih =>
    have hw : (fs.writeFile pc.1 pc.2).files = pc :: fs.files := by
      have := files_writeFile_fresh fs pc.1 pc.2 (hfresh pc (List.mem_cons_self _ _))
      simpa using this
    have hnd' : (t.map Prod.fst).Nodup := (List.nodup_cons.mp (by simpa using hnd)).2
    have hnotin : pc.1 ∉ t.map Prod.fst := (List.nodup_cons.mp (by simpa using hnd)).1
    have hfresh' : ∀ qc ∈ t, qc.1 ∉ (fs.writeFile pc.1 pc.2).files.map Prod.fst := by
      intro qc hqc
      rw [hw]
      simp only [List.map_cons, List.mem_cons]
      rintro (h1 | h2)
      · exact hnotin (h1 ▸ List.mem_map_of_mem Prod.fst hqc)
      · exact hfresh qc (List.mem_cons_of_mem _ hqc) h2
    calc ((pc :: t).foldl (fun a qc => a.writeFile qc.1 qc.2) fs).files
        = (t.foldl (fun a qc => a.writeFile qc.1 qc.2) (fs.writeFile pc.1 pc.2)).files := rfl
      _ = t.reverse ++ (fs.writeFile pc.1 pc.2).files := ih _ hfresh' hnd'
      _ = t.reverse ++ (pc :: fs.files) := by rw [hw]
      _ = (pc :: t).reverse ++ fs.files := by simp

theorem extractEntry_files_of_dir (dest : Path) (fs : FS) (e : ZipEntry)
    (hd : e.is_dir = true) (hs : e.file_size = 0) :
    (extractEntry dest fs e).files = fs.files := by
  simp [extractEntry, hd, hs, files_mkdirAll]

theorem extractEntry_eq_write (dest : Path) (fs : FS) (e : ZipEntry)
    (hd : e.is_dir = false) :
    extractEntry dest fs e
      = (mkdirAll fs (dest ++ e.filename).dropLast).writeFile
          (dest ++ e.filename) e.content := by
  unfold extractEntry
  rw [hd]
  split <;> simp

theorem extractall_files (entries : List ZipEntry) (fs : FS) (dest : Path)
    (hwf : ∀ e ∈ entries, e.is_dir = true → e.file_size = 0)
    (hfresh : ∀ e ∈ entries, (dest ++ e.filename) ∉ fs.files.map Prod.fst)
    (hnd : (entries.map ZipEntry.filename).Nodup) :
    (extractall fs entries dest).files
      = ((entries.filter (fun e => !e.is_dir)).map
          (fun e => (dest ++ e.filename, e.content))).reverse ++ fs.files := by
  induction entries generalizing fs with
  | nil => rfl
  | cons e t ih =>
    have hnd' : (t.map ZipEntry.filename).Nodup :=
      (List.nodup_cons.mp (by simpa using hnd)).2
    have hnotin : e.filename ∉ t.map ZipEntry.filename :=
      (List.nodup_cons.mp (by simpa using hnd)).1
    have hwf' : ∀ e2 ∈ t, e2.is_dir = true → e2.file_size = 0 :=
      fun e2 h2 => hwf e2 (List.mem_cons_of_mem _ h2)
    cases hd : e.is_dir with
    | true =>
      have hstep : (extractEntry dest fs e).files = fs.files :=
        extractEntry_files_of_dir dest fs e hd (hwf e (List.mem_cons_self _ _) hd)
      have hfresh' : ∀ e2 ∈ t, (dest ++ e2.filename) ∉ (extractEntry dest fs e).files.map Prod.fst := by
        intro e2 h2
        rw [hstep]
        exact hfresh e2 (List.mem_cons_of_mem _ h2)
      calc (extractall fs (e :: t) dest).files
          = (extractall (extractEntry dest fs e) t dest).files := rfl
        _ = ((t.filter (fun e2 => !e2.is_dir)).map
              (fun e2 => (dest ++ e2.filename, e2.content))).reverse
              ++ (extractEntry dest fs e).files := ih _ hwf' hfresh' hnd'
        _ = ((( e :: t).filter (fun e2 => !e2.is_dir)).map
              (fun e2 => (dest ++ e2.filename, e2.content))).reverse ++ fs.files := by
            rw [hstep, List.filter_cons_of_neg (by simp [hd])]
    | false =>
      have hstep : (extractEntry dest fs e).files
          = (dest ++ e.filename, e.content) :: fs.files := by
        rw [extractEntry_eq_write dest fs e hd]
        rw [files_writeFile_fresh]
        · rw [files_mkdirAll]
        · rw [files_mkdirAll]
          exact hfresh e (List.mem_cons_self _ _)
      have hfresh' : ∀ e2 ∈ t, (dest ++ e2.filename) ∉ (extractEntry dest fs e).files.map Prod.fst := by
        intro e2 h2
        rw [hstep]
        simp only [List.map_cons, List.mem_cons]
        rintro (h1 | h3)
        · have : e2.filename = e.filename := List.append_cancel_left h1
          exact hnotin (this ▸ List.mem_map_of_mem ZipEntry.filename h2)
        · exact hfresh e2 (List.mem_cons_of_mem _ h2) h3
      calc (extractall fs (e :: t) dest).files
          = (extractall (extractEntry dest fs e) t dest).files := rfl
        _ = ((t.filter (fun e2 => !e2.is_dir)).map
              (fun e2 => (dest ++ e2.filename, e2.content))).reverse
              ++ (extractEntry dest fs e).files := ih _ hwf' hfresh' hnd'
        _ = (((e :: t).filter (fun e2 => !e2.is_dir)).map
              (fun e2 => (dest ++ e2.filename, e2.content))).reverse ++ fs.files := by
            rw [hstep, List.filter_cons_of_pos (by simp [hd])]
            simp

theorem isPrefixOf_append_self (dest rest : Path) :
    dest.isPrefixOf (dest ++ rest) = true := by
  rw [List.isPrefixOf_iff_prefix]
  exact List.prefix_append dest rest

/-- **C3.** For a well-formed archive (entry bytes match declared sizes,
directory entries have size zero, entry names are distinct) extracted into a
destination holding no files, the total size of the files sitting under the
destination afterwards equals the sum of the declared uncompressed sizes of
the non-directory entries. -/
theorem extract_size_conservation (fs : FS) (entries : List ZipEntry) (dest : Path)
    (hwf : ∀ e ∈ entries, e.content.length = e.file_size ∧
      (e.is_dir = true → e.file_size = 0))
    (hnd : (entries.map ZipEntry.filename).Nodup)
    (hclean : ∀ pc ∈ fs.files, dest.isPrefixOf pc.1 = false) :
    sizeUnder (extractall fs entries dest) dest
      = ((entries.filter (fun e => !e.is_dir)).map ZipEntry.file_size).sum := by
  have hfresh : ∀ e ∈ entries, (dest ++ e.filename) ∉ fs.files.map Prod.fst := by
    intro e he hmem
    rcases List.mem_map.mp hmem with ⟨pc, hpc, heq⟩
    have := hclean pc hpc
    rw [heq, isPrefixOf_append_self] at this
    exact absurd this (by decide)
  rw [sizeUnder, extractall_files entries fs dest (fun e he => (hwf e he).2) hfresh hnd]
  rw [List.filter_append]
  have h1 : (((entries.filter (fun e => !e.is_dir)).map
      (fun e => (dest ++ e.filename, e.content))).reverse.filter
        (fun pc => dest.isPrefixOf pc.1))
      = ((entries.filter (fun e => !e.is_dir)).map
          (fun e => (dest ++ e.filename, e.content))).reverse := by
    rw [List.filter_eq_self]
    intro pc hpc
    rw [List.mem_reverse] at hpc
    rcases List.mem_map.mp hpc with ⟨e, _, heq⟩
    rw [← heq]
    exact isPrefixOf_append_self dest e.filename
  have h2 : fs.files.filter (fun pc => dest.isPrefixOf pc.1) = [] := by
    rw [List.filter_eq_nil_iff]
    intro pc hpc
    simp [hclean pc hpc]
  rw [h1, h2, List.append_nil, List.map_reverse, List.sum_reverse, List.map_map]
  refine congrArg List.sum (List.map_congr_left ?_)
  intro e he
  simpa using (hwf e (List.mem_of_mem_filter he)).1

/-- Witness for C3: a 2-entry archive (one directory, one 3-byte file)
extracted into an empty filesystem yields 3 bytes under the destination. -/
theorem extract_size_conservation_witness :
    sizeUnder
        (extractall { files := [], dirs := [] }
          [{ filename := ["d"], file_size := 0, is_dir := true, content := [] },
           { filename := ["a.jpg"], file_size := 3, is_dir := false, content := [5, 6, 7] }]
          ["out"])
        ["out"]
      = (([{ filename := ["d"], file_size := 0, is_dir := true, content := ([] : List Nat) },
           { filename := ["a.jpg"], file_size := 3, is_dir := false, content := [5, 6, 7] }].filter
            (fun e => !e.is_dir)).map ZipEntry.file_size).sum :=
  extract_size_conservation { files := [], dirs := [] } _ ["out"]
    (by decide) (by decide) (by intro pc hpc; exact absurd hpc (List.not_mem_nil pc))

/-- **C7.** An archive entry flagged as a directory with zero size results in
directory creation only: extracting it leaves the file table unchanged and
creates the directory at the corresponding destination path, so an archive
holding a single directory entry yields an empty directory and no files. -/
theorem extract_dir_entry (fs : FS) (dest : Path) (e : ZipEntry)
    (hd : e.is_dir = true) (hs : e.file_size = 0)
    (hne : ¬ dest ++ e.filename = []) :
    (extractall fs [e] dest).files = fs.files ∧
    dest ++ e.filename ∈ (extractall fs [e] dest).dirs := by
  have h1 : extractall fs [e] dest = mkdirAll fs (dest ++ e.filename) := by
    simp [extractall, extractEntry, hd, hs]
  rw [h1]
  exact ⟨files_mkdirAll _ _, mem_dirs_mkdirAll_self _ _ hne⟩

/-- Witness for C7: one directory entry, concrete filesystem. -/
theorem extract_dir_entry_witness :
    (extractall { files := [(["keep"], [1])], dirs := [] }
        [{ filename := ["empty"], file_size := 0, is_dir := true, content := [] }]
        ["out"]).files = [(["keep"], [1])] ∧
    ["out", "empty"] ∈
      (extractall { files := [(["keep"], [1])], dirs := [] }
        [{ filename := ["empty"], file_size := 0, is_dir := true, content := [] }]
        ["out"]).dirs :=
  extract_dir_entry { files := [(["keep"], [1])], dirs := [] } ["out"]
    { filename := ["empty"], file_size := 0, is_dir := true, content := [] }
    (by decide) (by decide) (by decide)

theorem isPrefixOf_self (p : Path) : p.isPrefixOf p = true := by
  rw [List.isPrefixOf_iff_prefix]

theorem find?_filter_ne (l : List (Path × List Nat)) (p q : Path) (h : ¬ q = p) :
    (l.filter (fun pc => ¬ pc.1 = p)).find? (fun pc => pc.1 = q)
      = l.find? (fun pc => pc.1 = q) := by
  induction l with
  | nil => rfl
  | cons a t ih =>
    by_cases hap : a.1 = p
    · rw [List.filter_cons_of_neg (by simp [hap]), ih]
      have haq : ¬ a.1 = q := by
        rw [hap]
        exact fun hq => h hq.symm
      rw [List.find?_cons_of_neg _ (by simpa using haq)]
    · rw [List.filter_cons_of_pos (by simpa using hap)]
      by_cases haq : a.1 = q
      · rw [List.find?_cons_of_pos _ (by simpa using haq),
          List.find?_cons_of_pos _ (by simpa using haq)]
      · rw [List.find?_cons_of_neg _ (by simpa using haq),
          List.find?_cons_of_neg _ (by simpa using haq), ih]

theorem lookup_writeFile_self (fs : FS) (p : Path) (c : List Nat) :
    (fs.writeFile p c).lookup p = some c := by
  simp [FS.lookup, FS.writeFile]

theorem lookup_writeFile_other (fs : FS) (p : Path) (c : List Nat) (q : Path)
    (h : ¬ q = p) :
    (fs.writeFile p c).lookup q = fs.lookup q := by
  unfold FS.lookup FS.writeFile
  have hp : ¬ ((p, c) : Path × List Nat).1 = q := fun he => h he.symm
  rw [List.find?_cons_of_neg _ (by simpa using hp), find?_filter_ne fs.files p q h]

theorem lookup_foldl_write_not_mem (l : List (Path × List Nat)) (fs : FS) (q : Path)
    (h : q ∉ l.map Prod.fst) :
    (l.foldl (fun a pc => a.writeFile pc.1 pc.2) fs).lookup q = fs.lookup q := by
  induction l generalizing fs with
  | nil => rfl
  | cons pc t ih =>
    have h1 : ¬ q = pc.1 := fun he =>
      h (by rw [List.map_cons, he]; exact List.mem_cons_self _ _)
    have h2 : q ∉ t.map Prod.fst := fun hm =>
      h (by rw [List.map_cons]; exact List.mem_cons_of_mem _ hm)
    calc ((pc :: t).foldl (fun a qc => a.writeFile qc.1 qc.2) fs).lookup q
        = (t.foldl (fun a qc => a.writeFile qc.1 qc.2) (fs.writeFile pc.1 pc.2)).lookup q := rfl
      _ = (fs.writeFile pc.1 pc.2).lookup q := ih _ h2
      _ = fs.lookup q := lookup_writeFile_other fs pc.1 pc.2 q h1

theorem lookup_foldl_write_mem (l : List (Path × List Nat)) (fs : FS)
    (q : Path) (c : List Nat)
    (hnd : (l.map Prod.fst).Nodup) (h : (q, c) ∈ l) :
    (l.foldl (fun a pc => a.writeFile pc.1 pc.2) fs).lookup q = some c := by
  induction l generalizing fs with
  | nil => exact absurd h (List.not_mem_nil _)
  | cons pc t ih =>
    have hnotin : pc.1 ∉ t.map Prod.fst := (List.nodup_cons.mp (by simpa using hnd)).1
    have hnd' : (t.map Prod.fst).Nodup := (List.nodup_cons.mp (by simpa using hnd)).2
    rcases List.mem_cons.mp h with h1 | h2
    · have hq : pc.1 = q := by rw [← h1]
      calc ((pc :: t).foldl (fun a qc => a.writeFile qc.1 qc.2) fs).lookup q
          = (t.foldl (fun a qc => a.writeFile qc.1 qc.2) (fs.writeFile pc.1 pc.2)).lookup q := rfl
        _ = (fs.writeFile pc.1 pc.2).lookup q :=
            lookup_foldl_write_not_mem t _ q (hq ▸ hnotin)
        _ = some c := by
            rw [hq, ← h1]
            exact lookup_writeFile_self fs q c
    · exact ih _ hnd' h2

theorem mkdirExc_true_ok (fs : FS) (p : Path) (h : p ∉ fs.files.map Prod.fst) :
    ∃ fs1, mkdirExc fs p true = Except.ok fs1 ∧ fs1.files = fs.files := by
  unfold mkdirExc
  rw [if_neg h]
  by_cases hd : p ∈ fs.dirs
  · rw [if_pos hd]
    exact ⟨fs, rfl, rfl⟩
  · rw [if_neg hd]
    exact ⟨addDir fs p, rfl, files_addDir fs p⟩

theorem foldlM_mkdir_ok (l : List Path) (g : Path → Path) (fs : FS)
    (h : ∀ p ∈ l, g p ∉ fs.files.map Prod.fst) :
    ∃ fs2, l.foldlM (fun b d => mkdirExc b (g d) true) fs = Except.ok fs2 ∧
      fs2.files = fs.files := by
  induction l generalizing fs with
  | nil => exact ⟨fs, rfl, rfl⟩
  | cons p t ih =>
    rcases mkdirExc_true_ok fs (g p) (h p (List.mem_cons_self _ _)) with ⟨fs1, hs1, hf1⟩
    have h' : ∀ q ∈ t, g q ∉ fs1.files.map Prod.fst := by
      rw [hf1]
      exact fun q hq => h q (List.mem_cons_of_mem _ hq)
    rcases ih fs1 h' with ⟨fs2, hs2, hf2⟩
    refine ⟨fs2, ?_, by rw [hf2, hf1]⟩
    rw [List.foldlM_cons, hs1]
    exact hs2

theorem copyConcurrent_mkdir_stage_ok (fs : FS) (src dest : Path)
    (hdest : dest ∉ fs.files.map Prod.fst)
    (hdirs : ∀ d ∈ srcDirsUnder fs src, relocate src dest d ∉ fs.files.map Prod.fst) :
    ∃ fsB, ((mkdirExc fs dest true).bind
        (fun a => (srcDirsUnder fs src).foldlM
          (fun b d => mkdirExc b (relocate src dest d) true) a))
        = Except.ok fsB ∧ fsB.files = fs.files := by
  rcases mkdirExc_true_ok fs dest hdest with ⟨fsA, hsA, hfA⟩
  have hdirs' : ∀ d ∈ srcDirsUnder fs src,
      relocate src dest d ∉ fsA.files.map Prod.fst := by
    rw [hfA]
    exact hdirs
  rcases foldlM_mkdir_ok (srcDirsUnder fs src) (relocate src dest) fsA hdirs'
    with ⟨fsB, hsB, hfB⟩
  refine ⟨fsB, ?_, by rw [hfB, hfA]⟩
  rw [hsA]
  exact hsB

theorem relocate_inj_on (src dest : Path) {p1 p2 : Path}
    (h1 : src.isPrefixOf p1 = true) (h2 : src.isPrefixOf p2 = true)
    (he : relocate src dest p1 = relocate src dest p2) : p1 = p2 := by
  have e1 : src ++ p1.drop src.length = p1 :=
    List.prefix_iff_eq_append.mp (List.isPrefixOf_iff_prefix.mp h1)
  have e2 : src ++ p2.drop src.length = p2 :=
    List.prefix_iff_eq_append.mp (List.isPrefixOf_iff_prefix.mp h2)
  have hd : p1.drop src.length = p2.drop src.length :=
    List.append_cancel_left he
  rw [← e1, ← e2, hd]

theorem srcFiles_fst_nodup (fs : FS) (src : Path)
    (hnd : (fs.files.map Prod.fst).Nodup) :
    ((srcFilesUnder fs src).map Prod.fst).Nodup :=
  hnd.sublist ((List.filter_sublist fs.files).map Prod.fst)

theorem mapped_targets_fst_nodup (fs : FS) (src dest : Path)
    (hnd : (fs.files.map Prod.fst).Nodup) :
    (((srcFilesUnder fs src).map
        (fun pc => (relocate src dest pc.1, pc.2))).map Prod.fst).Nodup := by
  have hcomp : ((srcFilesUnder fs src).map
      (fun pc => (relocate src dest pc.1, pc.2))).map Prod.fst
      = ((srcFilesUnder fs src).map Prod.fst).map (relocate src dest) := by
    rw [List.map_map, List.map_map]
    rfl
  rw [hcomp]
  refine (srcFiles_fst_nodup fs src hnd).map_on ?_
  intro x hx y hy hxy
  rcases List.mem_map.mp hx with ⟨pcx, hpcx, hex⟩
  rcases List.mem_map.mp hy with ⟨pcy, hpcy, hey⟩
  have hxp : src.isPrefixOf x = true := by
    rw [← hex]
    exact (by simpa using (List.mem_filter.mp hpcx).2)
  have hyp : src.isPrefixOf y = true := by
    rw [← hey]
    exact (by simpa using (List.mem_filter.mp hpcy).2)
  exact relocate_inj_on src dest hxp hyp hxy

/-- **C4.** With a worker-pool size of at least 1 and a destination initially
holding no files, the concurrent tree copy succeeds, and the files under the
destination afterwards are exactly the source files, relocated, with
identical byte content (hence exactly K files for K source files). -/
theorem copy_tree_complete (fs : FS) (src dest : Path) (maxThreads : Nat)
    (hpool : 1 ≤ maxThreads)
    (hnd : (fs.files.map Prod.fst).Nodup)
    (hclean : ∀ pc ∈ fs.files, dest.isPrefixOf pc.1 = false) :
    ∃ fs2, copy_concurrent fs src dest maxThreads = Except.ok fs2 ∧
      fs2.files.filter (fun pc => dest.isPrefixOf pc.1)
        = ((srcFilesUnder fs src).map
            (fun pc => (relocate src dest pc.1, pc.2))).reverse := by
  have hnz : ¬ maxThreads = 0 := by omega
  have hpre : ∀ rest : Path, (dest ++ rest) ∉ fs.files.map Prod.fst := by
    intro rest hmem
    rcases List.mem_map.mp hmem with ⟨pc, hpc, heq⟩
    have hc := hclean pc hpc
    rw [heq, isPrefixOf_append_self] at hc
    exact absurd hc (by decide)
  have hdest : dest ∉ fs.files.map Prod.fst := by
    have := hpre []
    simpa using this
  have hdirs : ∀ d ∈ srcDirsUnder fs src,
      relocate src dest d ∉ fs.files.map Prod.fst :=
    fun d _ => hpre (d.drop src.length)
  rcases copyConcurrent_mkdir_stage_ok fs src dest hdest hdirs with ⟨fsB, hsB, hfB⟩
  have hfold :
      ((srcFilesUnder fs src).foldl
        (fun a pc => a.writeFile (relocate src dest pc.1) pc.2) fsB).files
      = ((srcFilesUnder fs src).map
          (fun pc => (relocate src dest pc.1, pc.2))).reverse ++ fs.files := by
    rw [← List.foldl_map (fun pc : Path × List Nat => (relocate src dest pc.1, pc.2))
      (fun a pc => FS.writeFile a pc.1 pc.2)]
    rw [files_foldl_write_fresh _ fsB ?_ (mapped_targets_fst_nodup fs src dest hnd), hfB]
    intro pc hpc
    rcases List.mem_map.mp hpc with ⟨qc, _, heq⟩
    rw [← heq, hfB]
    exact hpre (qc.1.drop src.length)
  refine ⟨(srcFilesUnder fs src).foldl
      (fun a pc => a.writeFile (relocate src dest pc.1) pc.2) fsB, ?_, ?_⟩
  · unfold copy_concurrent copyConcurrentWith
    rw [if_neg hnz, hsB]
    rfl
  · rw [hfold, List.filter_append]
    have h1 : (((srcFilesUnder fs src).map
        (fun pc => (relocate src dest pc.1, pc.2))).reverse.filter
          (fun pc => dest.isPrefixOf pc.1))
        = ((srcFilesUnder fs src).map
            (fun pc => (relocate src dest pc.1, pc.2))).reverse := by
      rw [List.filter_eq_self]
      intro pc hpc
      rw [List.mem_reverse] at hpc
      rcases List.mem_map.mp hpc with ⟨qc, _, heq⟩
      rw [← heq]
      exact isPrefixOf_append_self dest _
    have h2 : fs.files.filter (fun pc => dest.isPrefixOf pc.1) = [] := by
      rw [List.filter_eq_nil_iff]
      intro pc hpc
      simp [hclean pc hpc]
    rw [h1, h2, List.append_nil]

/-- Witness for C4: two files under `s` copied into an empty `d` with a
single-worker pool. -/
theorem copy_tree_complete_witness :
    ∃ fs2, copy_concurrent
        { files := [(["s", "a"], [1, 2]), (["s", "b"], [3])], dirs := [["s"]] }
        ["s"] ["d"] 1 = Except.ok fs2 ∧
      fs2.files.filter (fun pc => (["d"] : Path).isPrefixOf pc.1)
        = ((srcFilesUnder
            { files := [(["s", "a"], [1, 2]), (["s", "b"], [3])], dirs := [["s"]] }
            ["s"]).map
              (fun pc => (relocate ["s"] ["d"] pc.1, pc.2))).reverse :=
  copy_tree_complete
    { files := [(["s", "a"], [1, 2]), (["s", "b"], [3])], dirs := [["s"]] }
    ["s"] ["d"] 1 (by decide) (by decide) (by decide)

/-- **C5.** `copy_concurrent` does not hand control back while any dispatched
copy task is incomplete: after the with-block exit (close + join) the pool has
no pending task, and every dispatched task has been completed. -/
theorem copier_joins_all_tasks (fs : FS) (src dest : Path) :
    (runCopier (dispatchedTasks fs src dest)).pending = [] ∧
    (runCopier (dispatchedTasks fs src dest)).completed
      = dispatchedTasks fs src dest := by
  have hfold : ∀ (ts : List CopyTask) (s : PoolState),
      ts.foldl applyAsync s
        = { pending := s.pending ++ ts, completed := s.completed } := by
    intro ts
    induction ts with
    | nil => intro s; simp
    | cons t ts ih =>
      intro s
      rw [List.foldl_cons, ih]
      simp [applyAsync]
  rw [runCopier, hfold]
  exact ⟨rfl, by simp [copierExit, poolClose, poolJoin]⟩

/-- **C6.** Re-running the tree copy when the destination already contains a
subdirectory of the same name as a source subdirectory does not raise
(`dirs_exist_ok=True`), and a destination file sharing its name with a source
file is overwritten with the source file's content. -/
theorem copy_tree_rerun_overwrites (fs : FS) (src dest : Path)
    (d0 p0 : Path) (c0 cold : List Nat)
    (hnd : (fs.files.map Prod.fst).Nodup)
    (hd0 : d0 ∈ fs.dirs) (hd0src : src.isPrefixOf d0 = true)
    (hd0dest : relocate src dest d0 ∈ fs.dirs)
    (hp0 : (p0, c0) ∈ fs.files) (hp0src : src.isPrefixOf p0 = true)
    (hold : (relocate src dest p0, cold) ∈ fs.files)
    (hdest : dest ∉ fs.files.map Prod.fst)
    (hdirs : ∀ d ∈ srcDirsUnder fs src, relocate src dest d ∉ fs.files.map Prod.fst) :
    ∃ fs2, copy_concurrent fs src dest 48 = Except.ok fs2 ∧
      fs2.lookup (relocate src dest p0) = some c0 := by
  rcases copyConcurrent_mkdir_stage_ok fs src dest hdest hdirs with ⟨fsB, hsB, _⟩
  refine ⟨(srcFilesUnder fs src).foldl
      (fun a pc => a.writeFile (relocate src dest pc.1) pc.2) fsB, ?_, ?_⟩
  · unfold copy_concurrent copyConcurrentWith
    rw [if_neg (by decide), hsB]
    rfl
  · rw [← List.foldl_map (fun pc : Path × List Nat => (relocate src dest pc.1, pc.2))
      (fun a pc => FS.writeFile a pc.1 pc.2)]
    refine lookup_foldl_write_mem _ fsB (relocate src dest p0) c0
      (mapped_targets_fst_nodup fs src dest hnd) ?_
    refine List.mem_map.mpr ⟨(p0, c0), ?_, rfl⟩
    exact List.mem_filter.mpr ⟨hp0, by simpa using hp0src⟩

/-- Witness for C6: destination `d` already has subdirectory `d/u` (matching
source `s/u`) and a stale file `d/a`; the copy succeeds and `d/a` ends up
with the source content `[1]`. -/
theorem copy_tree_rerun_overwrites_witness :
    ∃ fs2, copy_concurrent
        { files := [(["s", "a"], [1]), (["d", "a"], [9])],
          dirs := [["s"], ["s", "u"], ["d"], ["d", "u"]] }
        ["s"] ["d"] 48 = Except.ok fs2 ∧
      fs2.lookup (relocate ["s"] ["d"] ["s", "a"]) = some [1] :=
  copy_tree_rerun_overwrites
    { files := [(["s", "a"], [1]), (["d", "a"], [9])],
      dirs := [["s"], ["s", "u"], ["d"], ["d", "u"]] }
    ["s"] ["d"] ["s", "u"] ["s", "a"] [1] [9]
    (by decide) (by decide) (by decide) (by decide) (by decide) (by decide)
    (by decide) (by decide) (by decide)

/-- **C8.** Individual file-copy failures are never surfaced: whatever subset
of dispatched `shutil.copy2` tasks raises inside the pool, `copy_concurrent`
returns normally exactly when the all-successful run does. -/
theorem copy_failures_not_surfaced (fails : Path × List Nat → Bool) (fs : FS)
    (src dest : Path) (maxThreads : Nat) :
    exceptIsOk (copyConcurrentWith fails fs src dest maxThreads)
      = exceptIsOk (copy_concurrent fs src dest maxThreads) := by
  unfold copy_concurrent copyConcurrentWith
  by_cases hz : maxThreads = 0
  · rw [if_pos hz, if_pos hz]
  · rw [if_neg hz, if_neg hz]
    cases hm : (mkdirExc fs dest true).bind
        (fun a => (srcDirsUnder fs src).foldlM
          (fun b d => mkdirExc b (relocate src dest d) true) a) with
    | error e => rfl
    | ok fsB => rfl

theorem dirs_foldl_write {α : Type} (l : List α) (f : α → Path) (g : α → List Nat)
    (fs : FS) :
    (l.foldl (fun a x => a.writeFile (f x) (g x)) fs).dirs = fs.dirs := by
  induction l generalizing fs with
  | nil => rfl
  | cons x t ih => exact ih _

theorem fetcher_ok_of_all_zero (jobs : List DownloadJob)
    (h : ∀ j ∈ jobs, j.returncode = 0) : fetcher jobs = Except.ok () := by
  have hnil : fetchErrors jobs = [] := by
    rw [fetchErrors_eq, List.map_eq_nil_iff, List.filter_eq_nil_iff]
    intro j hj
    simp [h j hj]
  simp [fetcher, hnil]

theorem mkdirExc_false_error (fs : FS) (p : Path) (h : p ∈ fs.dirs) :
    mkdirExc fs p false = Except.error (DriverError.fileExistsError p) := by
  unfold mkdirExc
  by_cases hf : p ∈ fs.files.map Prod.fst
  · rw [if_pos hf]
  · rw [if_neg hf, if_pos h]
    rfl

theorem processPair_error_of_dir_exists (zc : Path → List ZipEntry) (fs : FS)
    (pr : PairSpec) (h : pr.extract_dest ∈ fs.dirs) :
    processPair zc fs pr
      = Except.error (DriverError.fileExistsError pr.extract_dest) := by
  unfold processPair
  rw [mkdirExc_false_error fs pr.extract_dest h]
  rfl

/-- **C10.** A scratch extraction directory that already exists when the
driver reaches its pair makes `extract_dest.mkdir()` raise `FileExistsError`
before that archive is extracted; consequently, re-running the driver over a
scratch space where `/tmp/train2017/` survives fails with that error even
when every download succeeds. -/
theorem scratch_dir_exists_fails (zc : Path → List ZipEntry) (fs : FS)
    (pr : PairSpec) (env : List (String × String)) (t : String)
    (wait : String → Int) (dl : String → List Nat)
    (hpr : pr ∈ pairs)
    (hdir : pr.extract_dest ∈ fs.dirs)
    (henv : env.lookup "MODAL_TASK_ID" = some t)
    (hwait : ∀ c, wait c = 0)
    (hfirst : destination ∈ fs.dirs) :
    processPair zc fs pr
      = Except.error (DriverError.fileExistsError pr.extract_dest) ∧
    import_transform_load env wait dl zc fs
      = Except.error (DriverError.fileExistsError destination) := by
  refine ⟨processPair_error_of_dir_exists zc fs pr hdir, ?_⟩
  have hmon : start_monitoring_disk_space env = Except.ok () := by
    unfold start_monitoring_disk_space
    rw [henv]
  have hfok : fetcher (commands.map (fun c => { cmd := c, returncode := wait c }))
      = Except.ok () := by
    refine fetcher_ok_of_all_zero _ ?_
    intro j hj
    rcases List.mem_map.mp hj with ⟨c, _, heq⟩
    rw [← heq]
    exact hwait c
  unfold import_transform_load import_transform_loadGen
  rw [hmon, hfok]
  show (pairs.foldlM (processPair zc)
      (downloadSpecs.foldl (fun a sp => a.writeFile sp.2 (dl sp.1)) fs))
    = Except.error (DriverError.fileExistsError destination)
  have hdl : (downloadSpecs.foldl (fun a sp => a.writeFile sp.2 (dl sp.1)) fs).dirs
      = fs.dirs :=
    dirs_foldl_write downloadSpecs (fun sp => sp.2) (fun sp => dl sp.1) fs
  have hhead : processPair zc
      (downloadSpecs.foldl (fun a sp => a.writeFile sp.2 (dl sp.1)) fs)
      { src := train2017_tmp, extract_dest := ["tmp", "train2017"],
        final_dest := ["vol", "coco", "train2017"] }
      = Except.error (DriverError.fileExistsError ["tmp", "train2017"]) :=
    processPair_error_of_dir_exists _ _ _ (by rw [hdl]; exact hfirst)
  have hpairs : pairs
      = { src := train2017_tmp, extract_dest := ["tmp", "train2017"],
          final_dest := ["vol", "coco", "train2017"] } :: pairs.tail := rfl
  rw [hpairs, List.foldlM_cons, hhead]
  rfl

/-- Witness for C10: `/tmp/train2017/` already exists in an otherwise empty
filesystem; both the pair step and the whole driver raise `FileExistsError`. -/
theorem scratch_dir_exists_fails_witness :
    processPair (fun _ => []) { files := [], dirs := [destination] }
        { src := train2017_tmp, extract_dest := ["tmp", "train2017"],
          final_dest := ["vol", "coco", "train2017"] }
      = Except.error (DriverError.fileExistsError ["tmp", "train2017"]) ∧
    import_transform_load envEx (fun _ => 0) (fun _ => []) (fun _ => [])
        { files := [], dirs := [destination] }
      = Except.error (DriverError.fileExistsError destination) :=
  scratch_dir_exists_fails (fun _ => []) { files := [], dirs := [destination] }
    { src := train2017_tmp, extract_dest := ["tmp", "train2017"],
      final_dest := ["vol", "coco", "train2017"] }
    envEx "ta-01" (fun _ => 0) (fun _ => [])
    (by decide) (by decide) (by decide) (fun c => rfl) (by decide)

/-- Counterexample to **C9** as stated ("for every environment"): in an
environment without `MODAL_TASK_ID`, the run with monitoring raises
`KeyError` while the run without monitoring proceeds, so the observable
outcome differs. -/
theorem monitoring_env_cex :
    ¬ import_transform_loadGen true [] (fun _ => 0) (fun _ => []) (fun _ => [])
        { files := [], dirs := [] }
      = import_transform_loadGen false [] (fun _ => 0) (fun _ => []) (fun _ => [])
        { files := [], dirs := [] } := by
  intro h
  have h2 := congrArg exceptIsOk h
  have h3 : exceptIsOk (import_transform_loadGen true [] (fun _ => 0)
      (fun _ => []) (fun _ => []) { files := [], dirs := [] }) = false := by decide
  have h4 : exceptIsOk (import_transform_loadGen false [] (fun _ => 0)
      (fun _ => []) (fun _ => []) { files := [], dirs := [] }) = true := by decide
  rw [h3, h4] at h2
  exact Bool.noConfusion h2

/-- **C9 (amended).** Provided the environment defines `MODAL_TASK_ID`, the
disk-space monitoring step has no effect on the driver: running with
monitoring omitted gives exactly the same result as with it enabled. -/
theorem monitoring_no_effect (env : List (String × String)) (t : String)
    (wait : String → Int) (dl : String → List Nat)
    (zc : Path → List ZipEntry) (fs : FS)
    (h : env.lookup "MODAL_TASK_ID" = some t) :
    import_transform_loadGen true env wait dl zc fs
      = import_transform_loadGen false env wait dl zc fs := by
  have hmon : start_monitoring_disk_space env = Except.ok () := by
    unfold start_monitoring_disk_space
    rw [h]
  unfold import_transform_loadGen
  rw [hmon]
  rfl

/-- Witness for C9 (amended) at a concrete environment defining the task id. -/
theorem monitoring_no_effect_witness :
    import_transform_loadGen true envEx (fun _ => 0) (fun _ => []) zcEx
        { files := [], dirs := [] }
      = import_transform_loadGen false envEx (fun _ => 0) (fun _ => []) zcEx
        { files := [], dirs := [] } :=
  monitoring_no_effect envEx "ta-01" (fun _ => 0) (fun _ => []) zcEx
    { files := [], dirs := [] } (by decide)

/-- **C1** is violated by the code: with train2017.zip holding `t.jpg` and
val2017.zip holding `v.jpg`, the driver extracts `v.jpg` into
`/tmp/train2017/` (the loop-invariant `destination`), not into the pair's
scratch directory `/tmp/val2017/`, and the copy for the val2017 pair ships
train2017's `t.jpg` into `/vol/coco/val2017/` — the final destination does
not contain exactly that archive's contents. -/
theorem misdirected_extraction_eval :
    finalLookup
        (import_transform_load envEx (fun _ => 0) (fun _ => []) zcEx
          { files := [], dirs := [] })
        ["vol", "coco", "val2017", "t.jpg"] = some [1, 2, 3] ∧
    finalLookup
        (import_transform_load envEx (fun _ => 0) (fun _ => []) zcEx
          { files := [], dirs := [] })
        ["tmp", "val2017", "v.jpg"] = none ∧
    finalLookup
        (import_transform_load envEx (fun _ => 0) (fun _ => []) zcEx
          { files := [], dirs := [] })
        ["tmp", "train2017", "v.jpg"] = some [7] := by
  decide

end Coco
